import Mathlib

/-!
Verification of the strat_analysis repository's core pipeline against its
specification.  The embedding below translates, into Lean over exact rational
arithmetic, the functions of `src/setup_analyzer/engine.py`,
`src/polygon_manager.py` and `src/config.py` that the claims are about:

* the OHLC-precision trade simulator `_simulate_ohlc_path`
  (engine.py lines 169-237),
* the FTFC reversal detector `detect_ftfc_reversals` (engine.py lines 23-158):
  pattern matching, reversal direction, higher-timeframe alignment and the
  confluence filter,
* the candle classifier `_add_strat_labels` (polygon_manager.py lines 85-105),
* the per-group aggregation performed by `summarize_setups`
  (engine.py lines 340-449).

Python floats are modelled as rationals (ℚ); the float value NaN is modelled
by `Option.none` (`some q` is a finite float value).  Python lists of
`Optional[float]` become `List (Option ℚ)`.  An out-of-range Python list
access raises IndexError; in this total model `List.set` out of range is a
no-op and reads default to `none`, and every theorem below that quantifies
over the contract count restricts to `2 ≤ contracts`, the range in which
`_simulate_ohlc_path` performs no out-of-range access.
-/

/-- One OHLC bar, as the dicts `{open, high, low, close}` consumed by
`_simulate_ohlc_path` (engine.py line 175).  `o`/`h`/`l`/`c` are the
`open`/`high`/`low`/`close` fields (`open` is a Lean keyword). -/
structure Bar where
  o : ℚ
  h : ℚ
  l : ℚ
  c : ℚ
deriving DecidableEq

/-- The `RiskModel` dataclass (engine.py lines 15-21).  Field defaults in the
source are `stop_pct=0.05`, `contracts=3`, `scale_out_R=(1.0, 2.0)`,
`trailing_after_R=2.0`, `trailing_gap_R=1.0`; `trailing_after_R` is never
read by `_simulate_ohlc_path`. -/
structure RiskModel where
  stop_pct : ℚ
  contracts : ℕ
  scale_out_R : ℚ × ℚ
  trailing_after_R : ℚ
  trailing_gap_R : ℚ
deriving DecidableEq

/-- The default `RiskModel()` (engine.py lines 15-21). -/
def defaultRisk : RiskModel := ⟨5/100, 3, (1, 2), 2, 1⟩

/-- `np.nanmean([r for r in exits_R if r is not None])` on a list whose
entries are finite floats or `None`: the mean of the non-`None` entries,
NaN (`none`) when no entry remains (numpy's "mean of empty slice"). -/
def nanmean (xs : List (Option ℚ)) : Option ℚ :=
  let vals := xs.filterMap id
  if vals = [] then none else some (vals.sum / vals.length)

/-- `r_price = entry_price * risk.stop_pct` (engine.py line 185). -/
def r_price (entry : ℚ) (risk : RiskModel) : ℚ := entry * risk.stop_pct

/-- `stop_price = entry_price - r_price if side_sign > 0 else entry_price + r_price`
(engine.py line 186). -/
def stop_price (entry : ℚ) (side : ℤ) (risk : RiskModel) : ℚ :=
  if 0 < side then entry - r_price entry risk else entry + r_price entry risk

/-- `t1_price` (engine.py line 187). -/
def t1_price (entry : ℚ) (side : ℤ) (risk : RiskModel) : ℚ :=
  if 0 < side then entry + risk.scale_out_R.1 * r_price entry risk
  else entry - risk.scale_out_R.1 * r_price entry risk

/-- `t2_price` (engine.py line 188). -/
def t2_price (entry : ℚ) (side : ℤ) (risk : RiskModel) : ℚ :=
  if 0 < side then entry + risk.scale_out_R.2 * r_price entry risk
  else entry - risk.scale_out_R.2 * r_price entry risk

/-- The stop-out test performed first on every bar (engine.py line 197):
`(side_sign > 0 and bar['low'] <= stop_price) or
 (side_sign < 0 and bar['high'] >= stop_price)`. -/
def stopCond (entry : ℚ) (side : ℤ) (risk : RiskModel) (bar : Bar) : Prop :=
  (0 < side ∧ bar.l ≤ stop_price entry side risk) ∨
  (side < 0 ∧ stop_price entry side risk ≤ bar.h)

instance (entry : ℚ) (side : ℤ) (risk : RiskModel) (bar : Bar) :
    Decidable (stopCond entry side risk bar) := by
  unfold stopCond; infer_instance

/-- The T1 touch test for the bar (engine.py lines 204 and 210): favorable
extreme reaches `t1_price` (`bar['high'] >= t1_price` long,
`bar['low'] <= t1_price` short, the `side_sign > 0` branch deciding). -/
def t1Hit (entry : ℚ) (side : ℤ) (risk : RiskModel) (bar : Bar) : Prop :=
  if 0 < side then t1_price entry side risk ≤ bar.h
  else bar.l ≤ t1_price entry side risk

instance (entry : ℚ) (side : ℤ) (risk : RiskModel) (bar : Bar) :
    Decidable (t1Hit entry side risk bar) := by
  unfold t1Hit; infer_instance

/-- The T2 touch test for the bar (engine.py lines 206 and 212). -/
def t2Hit (entry : ℚ) (side : ℤ) (risk : RiskModel) (bar : Bar) : Prop :=
  if 0 < side then t2_price entry side risk ≤ bar.h
  else bar.l ≤ t2_price entry side risk

instance (entry : ℚ) (side : ℤ) (risk : RiskModel) (bar : Bar) :
    Decidable (t2Hit entry side risk bar) := by
  unfold t2Hit; infer_instance

/-- The loop-carried state of `_simulate_ohlc_path` (engine.py lines 190-193):
`exits_R` (a `risk.contracts`-long list of realized R-multiples or `None`),
`trailing_active`, and `max_price_seen` (the running favorable extreme; for a
short it holds the running minimum).  `trailing_stop` is not state: the source
reassigns it from `max_price_seen` before every read. -/
structure SimState where
  exits : List (Option ℚ)
  trailing_active : Bool
  max_price_seen : ℚ
deriving DecidableEq

/-- Outcome of processing one bar of the loop body (engine.py lines 195-229):
either an early `return` with the function's value, or the next loop state. -/
inductive StepResult where
  | done (r : Option ℚ)
  | next (s : SimState)
deriving DecidableEq

/-- The scale-out target block of the loop body (engine.py lines 202-214):
fill `exits_R[0]` at `+scale_out_R[0]` on a T1 touch, then `exits_R[1]` at
`+scale_out_R[1]` on a T2 touch (which also sets `trailing_active = True`). -/
def targetUpdate (entry : ℚ) (side : ℤ) (risk : RiskModel) (bar : Bar)
    (st : SimState) : SimState :=
  let e1 := if st.exits.getD 0 none = none ∧ t1Hit entry side risk bar
    then st.exits.set 0 (some risk.scale_out_R.1) else st.exits
  if e1.getD 1 none = none ∧ t2Hit entry side risk bar
    then ⟨e1.set 1 (some risk.scale_out_R.2), true, st.max_price_seen⟩
    else ⟨e1, st.trailing_active, st.max_price_seen⟩

/-- The trailing-stop block of the loop body (engine.py lines 216-229):
when trailing is active and the last contract-unit (`exits_R[-1]`) is still
open, update the favorable extreme, recompute
`trailing_stop = extreme ∓ trailing_gap_R * r_price`, and exit the last unit
at the R-multiple implied by the trailing-stop price if the bar's adverse
extreme crosses it. -/
def trailingUpdate (entry : ℚ) (side : ℤ) (risk : RiskModel) (bar : Bar)
    (st : SimState) : StepResult :=
  if st.trailing_active = true ∧ st.exits.getLastD none = none then
    if 0 < side then
      let m := max st.max_price_seen bar.h
      let tstop := m - risk.trailing_gap_R * r_price entry risk
      if bar.l ≤ tstop then
        .done (nanmean (st.exits.set (st.exits.length - 1)
          (some ((tstop - entry) / r_price entry risk))))
      else .next ⟨st.exits, st.trailing_active, m⟩
    else
      let m := min st.max_price_seen bar.l
      let tstop := m + risk.trailing_gap_R * r_price entry risk
      if tstop ≤ bar.h then
        .done (nanmean (st.exits.set (st.exits.length - 1)
          (some ((entry - tstop) / r_price entry risk))))
      else .next ⟨st.exits, st.trailing_active, m⟩
  else .next st

/-- One iteration of the `for bar in ohlc_bars` loop (engine.py lines
195-229).  The stop-out test runs first: on a stop touch every still-open
unit is filled at `-1.0` and the function returns their `nanmean`
immediately (lines 196-200), before any target or trailing-stop test. -/
def simStep (entry : ℚ) (side : ℤ) (risk : RiskModel) (bar : Bar)
    (st : SimState) : StepResult :=
  if stopCond entry side risk bar then
    .done (nanmean (st.exits.map (fun e => some (e.getD (-1)))))
  else
    trailingUpdate entry side risk bar (targetUpdate entry side risk bar st)

/-- The bar loop of `_simulate_ohlc_path`: `Sum.inl r` is an early `return r`,
`Sum.inr st` means the forward window was exhausted with state `st`. -/
def simLoop (entry : ℚ) (side : ℤ) (risk : RiskModel) :
    List Bar → SimState → Sum (Option ℚ) SimState
  | [], st => .inr st
  | b :: rest, st =>
    match simStep entry side risk b st with
    | .done r => .inl r
    | .next st' => simLoop entry side risk rest st'

/-- `_simulate_ohlc_path(entry_price, ohlc_bars, side_sign, risk)`
(engine.py lines 169-237).  A non-positive entry price or an empty forward
window returns NaN (`none`; a non-finite float entry, also NaN in the source,
has no ℚ representative).  If the loop exhausts the window, every still-open
unit exits at the R-multiple of the final bar's close (lines 231-237). -/
def _simulate_ohlc_path (entry : ℚ) (ohlc_bars : List Bar) (side : ℤ)
    (risk : RiskModel) : Option ℚ :=
  if entry ≤ 0 ∨ ohlc_bars = [] then none
  else
    match simLoop entry side risk ohlc_bars
        ⟨List.replicate risk.contracts none, false, entry⟩ with
    | .inl r => r
    | .inr st =>
      let last_close := (ohlc_bars.getLastD ⟨0, 0, 0, 0⟩).c
      let exit_r := if 0 < side then (last_close - entry) / r_price entry risk
        else (entry - last_close) / r_price entry risk
      nanmean (st.exits.map (fun e => some (e.getD exit_r)))

/-- The candle classification labels written by `_add_strat_labels`
(polygon_manager.py lines 85-105): `'1'`, `'2u'`, `'2d'`, `'3'`, and the
fallback / first-bar label `'N/A'`. -/
inductive Lbl where
  | one
  | twoU
  | twoD
  | three
  | na
deriving DecidableEq, Fintype

/-- Classification of bar `c` given the previous bar `p`, in the order of the
`np.select(conditions, choices, default='N/A')` call (polygon_manager.py
lines 92-101): the first matching condition wins, the default is `'N/A'`. -/
def classifyBar (p c : Bar) : Lbl :=
  if c.h > p.h ∧ c.l < p.l then .three
  else if c.h ≤ p.h ∧ c.l ≥ p.l then .one
  else if c.h > p.h ∧ c.l ≥ p.l then .twoU
  else if c.h ≤ p.h ∧ c.l < p.l then .twoD
  else .na

/-- Labels every bar of a series from its predecessor. -/
def labelsFrom (p : Bar) : List Bar → List Lbl
  | [] => []
  | c :: rest => classifyBar p c :: labelsFrom c rest

/-- `_add_strat_labels` (polygon_manager.py lines 85-105): the label column of
a series.  The first bar has no previous bar and is set to `'N/A'`
(line 103); every later bar is classified against its predecessor.
(`label_candlesticks` in strat_app.py lines 122-137 assigns the same four
conditions to an `'N/A'`-initialized column and pins the first row, which is
the same per-bar rule.) -/
def _add_strat_labels : List Bar → List Lbl
  | [] => []
  | b :: rest => .na :: labelsFrom b rest

/-- One row of a labeled OHLC frame as consumed by `detect_ftfc_reversals`:
its timestamp (the DataFrame index), its `label` column and its `close`. -/
structure LBar where
  ts : ℤ
  label : Lbl
  c : ℚ
deriving DecidableEq

/-- `REVERSAL_PATTERNS` (config.py lines 49-56), in dict insertion order:
label-tuple keys mapped to pattern names. -/
def REVERSAL_PATTERNS : List (List Lbl × String) :=
  [([.three, .one, .twoU], "3-1-2u"),
   ([.three, .one, .twoD], "3-1-2d"),
   ([.twoU, .one, .twoD], "2u-1-2d"),
   ([.twoD, .one, .twoU], "2d-1-2u"),
   ([.twoU, .twoD], "2u-2d"),
   ([.twoD, .twoU], "2d-2u")]

/-- The pattern-matching loop of `detect_ftfc_reversals` (engine.py lines
77-81): iterate `REVERSAL_PATTERNS` in order and return the first
`pattern_name` whose key has the same length as the label window and equals
it.  `detect_ftfc_reversals` always calls this with the 3-label window
`labels = tuple(df['label'].iloc[idx-2:idx+1])` (line 74). -/
def matchPattern (labels : List Lbl) : Option String :=
  (REVERSAL_PATTERNS.find? (fun p =>
    decide (labels.length = p.1.length) && decide (labels = p.1))).map (fun p => p.2)

/-- The reversal-direction step (engine.py lines 90-96):
`'2u'` if the character `'u'` occurs anywhere in the matched pattern name
(Python `'u' in pattern_match`), else `'2d'` if `'d'` occurs anywhere, else
the event is skipped (`continue`, modelled as `none`). -/
def reversalDirection (pattern_match : String) : Option Lbl :=
  if 'u' ∈ pattern_match.data then some .twoU
  else if 'd' ∈ pattern_match.data then some .twoD
  else none

/-- The higher-timeframe alignment of `detect_ftfc_reversals` (engine.py
lines 112-116): `df_higher[df_higher.index <= reversal_time].iloc[-1]`, i.e.
the last row (in frame order) whose timestamp is at or before the trigger
time, `none` when the filter leaves no row. -/
def alignedBar (df_higher : List LBar) (reversal_time : ℤ) : Option LBar :=
  (df_higher.filter (fun b => decide (b.ts ≤ reversal_time))).getLast?

/-- The confluence loop of `detect_ftfc_reversals` (engine.py lines 99-127):
walk the available higher-timeframe frames in order; a frame whose alignment
yields no row is skipped (`continue`); a frame whose aligned label equals the
reversal direction (the `'2u'`/`'2u'` or `'2d'`/`'2d'` comparisons of lines
120-127) increments `higher_tfs_aligned`. -/
def alignStep (reversal_time : ℤ) (dir : Lbl) (acc : ℕ)
    (df_higher : List LBar) : ℕ :=
  match alignedBar df_higher reversal_time with
  | none => acc
  | some b =>
    if dir = .twoU ∧ b.label = .twoU then acc + 1
    else if dir = .twoD ∧ b.label = .twoD then acc + 1
    else acc

/-- The value of `higher_tfs_aligned` after the confluence loop. -/
def countAligned (higherTFs : List (List LBar)) (reversal_time : ℤ)
    (dir : Lbl) : ℕ :=
  higherTFs.foldl (alignStep reversal_time dir) 0

/-- A reversal record as built by `detect_ftfc_reversals` (engine.py lines
144-154), restricted to the fields the claims are about. -/
structure ReversalEvent where
  time : ℤ
  pattern : String
  direction : Lbl
  entry_price : ℚ
  ftfc_count : ℕ
deriving DecidableEq

/-- The body of `detect_ftfc_reversals` for one trigger-timeframe index
(engine.py lines 69-156, without the forward-move columns): indices below 2
are never visited (`range(2, len(df_reversal))`); the 3-label window is
matched against `REVERSAL_PATTERNS`; an unmatched window or a pattern name
without `'u'`/`'d'` produces nothing; otherwise the higher timeframes are
counted and the event is kept only when
`higher_tfs_aligned >= min_higher_tfs`, with `entry_price` the close of the
trigger bar (line 134). -/
def detectAtIndex (df : List LBar) (higherTFs : List (List LBar))
    (min_higher_tfs : ℕ) (idx : ℕ) : Option ReversalEvent :=
  match df[idx]? with
  | none => none
  | some reversal_bar =>
    if idx < 2 then none
    else
      let labels := ((df.drop (idx - 2)).take 3).map LBar.label
      match matchPattern labels with
      | none => none
      | some pattern_match =>
        match reversalDirection pattern_match with
        | none => none
        | some reversal_direction =>
          let cnt := countAligned higherTFs reversal_bar.ts reversal_direction
          if cnt < min_higher_tfs then none
          else some ⟨reversal_bar.ts, pattern_match, reversal_direction,
            reversal_bar.c, cnt⟩

/-- `sample_count` of one aggregation group (engine.py lines 400-423): the
pandas `count` aggregation of `_Expectancy_R`, which counts the non-NaN
entries of the group. -/
def sample_count (results : List (Option ℚ)) : ℕ :=
  (results.filterMap id).length

/-- `expectancy_R` of one aggregation group (engine.py lines 400-423): the
pandas `mean` aggregation of `_Expectancy_R`, which skips NaN entries and is
itself NaN when no entry remains. -/
def expectancy_R (results : List (Option ℚ)) : Option ℚ :=
  nanmean results

/-- The `_Win` column (engine.py line 397):
`(df['_Expectancy_R'] > 0).astype(int)`.  A NaN expectancy compares as not
greater than 0, so it yields `0`. -/
def winFlag (result : Option ℚ) : ℕ :=
  match result with
  | some x => if 0 < x then 1 else 0
  | none => 0

/-- `win_rate` of one aggregation group (engine.py lines 397-423): the pandas
`mean` aggregation of the integer `_Win` column over every row of the group
(the column contains no NaN, so nothing is skipped). -/
def win_rate (results : List (Option ℚ)) : Option ℚ :=
  if results = [] then none
  else some (((results.map winFlag).sum : ℚ) / results.length)

/-! ## Helper lemmas -/

/-- The `_Win` column of a group sums to the number of defined, strictly
positive results: a NaN row contributes 0 (it is compared as not greater
than 0), a defined row contributes its win indicator. -/
theorem winFlag_sum (results : List (Option ℚ)) :
    (results.map winFlag).sum
      = ((results.filterMap id).filter (fun x => decide (0 < x))).length := by
  induction results with
  | nil => rfl
  | cons r rest ih =>
    cases r with
    | none => simpa [winFlag] using ih
    | some x =>
      by_cases hx : 0 < x
      · simp [winFlag, hx, List.filter_cons, ih]
        omega
      · simp [winFlag, hx, List.filter_cons, ih]

/-- In a list sorted by timestamp, the last element's timestamp dominates
every member's timestamp. -/
theorem pairwise_ts_getLast? (l : List LBar)
    (hp : l.Pairwise (fun a b => a.ts ≤ b.ts)) :
    ∀ b, l.getLast? = some b → ∀ x ∈ l, x.ts ≤ b.ts := by
  induction l with
  | nil => intro b hb; simp at hb
  | cons a tl ih =>
    intro b hb x hx
    cases tl with
    | nil =>
      simp at hb hx
      simp [hx, ← hb]
    | cons c tl2 =>
      rw [List.getLast?_cons_cons] at hb
      rcases List.mem_cons.mp hx with rfl | hx2
      · exact (List.pairwise_cons.mp hp).1 b (List.mem_of_mem_getLast? hb)
      · exact ih (List.pairwise_cons.mp hp).2 b hb x hx2

/-! ## Claims -/

/-- C3: the reversal direction of a matched pattern is derived by the
substring tests of engine.py lines 90-96, not from the trailing component of
the name: the window `('2u','1','2d')` matches pattern `2u-1-2d`, whose name
contains `'u'`, so the emitted direction is `'2u'` (bullish) although the
name's trailing component is `2d`; the full per-index detector therefore
emits a `'2u'`-direction event for this window.  This evaluates the code at
the failing input of the claim. -/
theorem c3_direction_substring_eval :
    matchPattern [Lbl.twoU, Lbl.one, Lbl.twoD] = some "2u-1-2d" ∧
    reversalDirection "2u-1-2d" = some Lbl.twoU ∧
    detectAtIndex [⟨1, .twoU, 100⟩, ⟨2, .one, 101⟩, ⟨3, .twoD, 99⟩]
        [[⟨0, .twoU, 50⟩]] 1 2
      = some ⟨3, "2u-1-2d", Lbl.twoU, 99, 1⟩ ∧
    Lbl.twoU ≠ Lbl.twoD := by
  decide

/-- C4: the matcher of `detect_ftfc_reversals` always compares the fixed
3-label window against the table under a length-equality guard (engine.py
lines 74-81), so the 2-bar entries of `REVERSAL_PATTERNS` can never match:
the window `('1','2u','2d')`, whose trailing 2-bar window is `('2u','2d')`
and which matches no 3-bar pattern, produces no match and no event, although
the 2-bar key `('2u','2d') → '2u-2d'` is present in the table (and would
match a 2-label window).  This evaluates the code at the failing input of
the claim. -/
theorem c4_two_bar_table_unreachable :
    matchPattern [Lbl.one, Lbl.twoU, Lbl.twoD] = none ∧
    detectAtIndex [⟨1, .one, 100⟩, ⟨2, .twoU, 101⟩, ⟨3, .twoD, 99⟩] [] 0 2
      = none ∧
    ([Lbl.twoU, Lbl.twoD], "2u-2d") ∈ REVERSAL_PATTERNS ∧
    matchPattern [Lbl.twoU, Lbl.twoD] = some "2u-2d" ∧
    (∀ a b c : Lbl, matchPattern [a, b, c] ≠ some "2u-2d") ∧
    (∀ a b c : Lbl, matchPattern [a, b, c] ≠ some "2d-2u") := by
  decide

/-- C5: the aligned higher-timeframe bar always carries a timestamp at or
before the trigger time (no look-ahead); on a timestamp-sorted frame it is
the most recent such bar; and a higher timeframe with no bar at or before
the trigger time is skipped by the confluence loop — it contributes nothing
to the count and the event is not aborted. -/
theorem c5_alignment_no_lookahead :
    ∀ (df_higher : List LBar) (t : ℤ),
      (∀ b, alignedBar df_higher t = some b → b ∈ df_higher ∧ b.ts ≤ t) ∧
      (df_higher.Pairwise (fun a b => a.ts ≤ b.ts) →
        ∀ b b', alignedBar df_higher t = some b → b' ∈ df_higher →
          b'.ts ≤ t → b'.ts ≤ b.ts) ∧
      (∀ (rest : List (List LBar)) (dir : Lbl), alignedBar df_higher t = none →
        countAligned (df_higher :: rest) t dir = countAligned rest t dir) := by
  intro df t
  refine ⟨?_, ?_, ?_⟩
  · intro b hb
    have hmem := List.mem_filter.mp (List.mem_of_mem_getLast? hb)
    exact ⟨hmem.1, by simpa using hmem.2⟩
  · intro hsort b b' hb hb' hble
    exact pairwise_ts_getLast? _ (hsort.filter _) b hb b'
      (List.mem_filter.mpr ⟨hb', by simpa⟩)
  · intro rest dir hnone
    show List.foldl _ (alignStep t dir 0 df) rest = _
    rw [alignStep, hnone]
    rfl

/-- C5 witness: the theorem applied to the concrete sorted frame
`[(ts 1, 2u), (ts 2, 2d)]` at trigger time 3 (alignment picks the ts-2 bar),
and to the frame `[(ts 5, 2u)]` whose only bar is after the trigger time
(skipped by the confluence loop). -/
theorem c5_alignment_no_lookahead_witness :
    ((⟨2, Lbl.twoD, 101⟩ : LBar) ∈
        [(⟨1, Lbl.twoU, 100⟩ : LBar), ⟨2, Lbl.twoD, 101⟩] ∧ (2 : ℤ) ≤ 3) ∧
    (1 : ℤ) ≤ 2 ∧
    countAligned [[⟨5, Lbl.twoU, 7⟩]] 3 Lbl.twoU = countAligned [] 3 Lbl.twoU := by
  refine ⟨?_, ?_, ?_⟩
  · exact (c5_alignment_no_lookahead
      [⟨1, .twoU, 100⟩, ⟨2, .twoD, 101⟩] 3).1 ⟨2, .twoD, 101⟩ (by decide)
  · exact (c5_alignment_no_lookahead
      [⟨1, .twoU, 100⟩, ⟨2, .twoD, 101⟩] 3).2.1 (by decide)
      ⟨2, .twoD, 101⟩ ⟨1, .twoU, 100⟩ (by decide) (by decide) (by decide)
  · exact (c5_alignment_no_lookahead [⟨5, .twoU, 7⟩] 3).2.2 [] Lbl.twoU (by decide)

/-- Folding the confluence step from any accumulator adds the number of
higher timeframes whose aligned label equals the direction. -/
theorem alignStep_eq (t : ℤ) (dir : Lbl)
    (hdir : dir = Lbl.twoU ∨ dir = Lbl.twoD) (acc : ℕ) (d : List LBar) :
    alignStep t dir acc d
      = acc + (if (alignedBar d t).map LBar.label = some dir then 1 else 0) := by
  rw [alignStep]
  rcases hal : alignedBar d t with _ | b
  · simp
  · simp only [hal, Option.map_some']
    rcases hdir with rfl | rfl
    · by_cases hbl : b.label = Lbl.twoU <;> simp [hbl]
    · by_cases hbl : b.label = Lbl.twoD <;> simp [hbl]

theorem alignStep_foldl (t : ℤ) (dir : Lbl)
    (hdir : dir = Lbl.twoU ∨ dir = Lbl.twoD) :
    ∀ (l : List (List LBar)) (acc : ℕ),
      l.foldl (alignStep t dir) acc
        = acc + (l.filter (fun df =>
            decide ((alignedBar df t).map LBar.label = some dir))).length := by
  intro l
  induction l with
  | nil => simp
  | cons d tl ih =>
    intro acc
    rw [List.foldl_cons, alignStep_eq t dir hdir, ih, List.filter_cons]
    by_cases hg : (alignedBar d t).map LBar.label = some dir
    · simp [hg]
      omega
    · simp [hg]

/-- C6: the confluence counter of `detect_ftfc_reversals` equals the number
of higher timeframes whose aligned label is exactly the reversal direction
(`'1'`, `'3'` and `'N/A'` labels never count); at a matched index an event
is produced iff the counter reaches `min_higher_tfs`, and the produced
event's entry price is the close of the trigger bar. -/
theorem c6_confluence_emission :
    (∀ (hts : List (List LBar)) (t : ℤ) (dir : Lbl),
      dir = Lbl.twoU ∨ dir = Lbl.twoD →
      countAligned hts t dir
        = (hts.filter (fun df =>
            decide ((alignedBar df t).map LBar.label = some dir))).length) ∧
    (∀ (df : List LBar) (hts : List (List LBar)) (minc idx : ℕ) (bar : LBar)
      (pm : String) (dir : Lbl),
      df[idx]? = some bar → ¬ idx < 2 →
      matchPattern (((df.drop (idx - 2)).take 3).map LBar.label) = some pm →
      reversalDirection pm = some dir →
      ((minc ≤ countAligned hts bar.ts dir ↔
          detectAtIndex df hts minc idx
            = some ⟨bar.ts, pm, dir, bar.c, countAligned hts bar.ts dir⟩) ∧
       (countAligned hts bar.ts dir < minc →
          detectAtIndex df hts minc idx = none))) := by
  constructor
  · intro hts t dir hdir
    simpa using alignStep_foldl t dir hdir hts 0
  · intro df hts minc idx bar pm dir hbar h2 hm hd
    rw [detectAtIndex, hbar]
    simp only [h2, if_false, hm, hd]
    by_cases hc : countAligned hts bar.ts dir < minc
    · simp [hc]
    · simp [hc]
      omega

/-- C6 witness: a `('3','1','2u')` trigger window with three higher
timeframes aligned `'2u'` and threshold 3 emits the event with entry price
the trigger bar's close. -/
theorem c6_confluence_emission_witness :
    countAligned [[⟨0, Lbl.twoU, 1⟩], [⟨0, Lbl.twoU, 1⟩], [⟨0, Lbl.twoU, 1⟩]]
        3 Lbl.twoU
      = ([[(⟨0, Lbl.twoU, 1⟩ : LBar)], [⟨0, Lbl.twoU, 1⟩],
          [⟨0, Lbl.twoU, 1⟩]].filter (fun df =>
            decide ((alignedBar df 3).map LBar.label = some Lbl.twoU))).length ∧
    detectAtIndex [⟨1, .three, 10⟩, ⟨2, .one, 11⟩, ⟨3, .twoU, 12⟩]
        [[⟨0, .twoU, 1⟩], [⟨0, .twoU, 1⟩], [⟨0, .twoU, 1⟩]] 3 2
      = some ⟨3, "3-1-2u", Lbl.twoU, 12, 3⟩ := by
  constructor
  · exact (c6_confluence_emission.1
      [[⟨0, .twoU, 1⟩], [⟨0, .twoU, 1⟩], [⟨0, .twoU, 1⟩]] 3 Lbl.twoU
      (Or.inl rfl))
  · have h := (c6_confluence_emission.2
      [⟨1, .three, 10⟩, ⟨2, .one, 11⟩, ⟨3, .twoU, 12⟩]
      [[⟨0, .twoU, 1⟩], [⟨0, .twoU, 1⟩], [⟨0, .twoU, 1⟩]] 3 2
      ⟨3, .twoU, 12⟩ "3-1-2u" Lbl.twoU
      (by decide) (by decide) (by decide) (by decide)).1
    have hc : countAligned
        [[(⟨0, Lbl.twoU, 1⟩ : LBar)], [⟨0, .twoU, 1⟩], [⟨0, .twoU, 1⟩]]
        (3 : ℤ) Lbl.twoU = 3 := by decide
    rw [hc] at h
    exact h.mp (by omega)

/-- C7: for every bar with a defined previous bar, the four classification
conditions of `_add_strat_labels` (Outside `3`, Inside `1`, DirectionalUp
`2u`, DirectionalDown `2d`) are mutually exclusive and exhaustive — exactly
one holds, for arbitrary prices — so the `np.select` fallback label `'N/A'`
is unreachable for such bars; and the first bar of every labeled series is
`'N/A'`. -/
theorem c7_classification_exhaustive :
    (∀ p c : Bar,
      (((c.h > p.h ∧ c.l < p.l) ∧ ¬(c.h ≤ p.h ∧ c.l ≥ p.l) ∧
          ¬(c.h > p.h ∧ c.l ≥ p.l) ∧ ¬(c.h ≤ p.h ∧ c.l < p.l)) ∨
       ((c.h ≤ p.h ∧ c.l ≥ p.l) ∧ ¬(c.h > p.h ∧ c.l < p.l) ∧
          ¬(c.h > p.h ∧ c.l ≥ p.l) ∧ ¬(c.h ≤ p.h ∧ c.l < p.l)) ∨
       ((c.h > p.h ∧ c.l ≥ p.l) ∧ ¬(c.h > p.h ∧ c.l < p.l) ∧
          ¬(c.h ≤ p.h ∧ c.l ≥ p.l) ∧ ¬(c.h ≤ p.h ∧ c.l < p.l)) ∨
       ((c.h ≤ p.h ∧ c.l < p.l) ∧ ¬(c.h > p.h ∧ c.l < p.l) ∧
          ¬(c.h ≤ p.h ∧ c.l ≥ p.l) ∧ ¬(c.h > p.h ∧ c.l ≥ p.l))) ∧
      classifyBar p c ≠ Lbl.na) ∧
    (∀ (b : Bar) (rest : List Bar),
      (_add_strat_labels (b :: rest)).head? = some Lbl.na) := by
  refine ⟨fun p c => ⟨?_, ?_⟩, fun b rest => rfl⟩
  · rcases le_or_lt c.h p.h with h1 | h1 <;> rcases lt_or_le c.l p.l with h2 | h2
    · exact Or.inr (Or.inr (Or.inr ⟨⟨h1, h2⟩,
        fun hh => absurd hh.1 (not_lt.mpr h1),
        fun hh => absurd hh.2 (not_le.mpr h2),
        fun hh => absurd hh.1 (not_lt.mpr h1)⟩))
    · exact Or.inr (Or.inl ⟨⟨h1, h2⟩,
        fun hh => absurd hh.1 (not_lt.mpr h1),
        fun hh => absurd hh.1 (not_lt.mpr h1),
        fun hh => absurd hh.2 (not_lt.mpr h2)⟩)
    · exact Or.inl ⟨⟨h1, h2⟩,
        fun hh => absurd hh.1 (not_le.mpr h1),
        fun hh => absurd hh.2 (not_le.mpr h2),
        fun hh => absurd hh.1 (not_le.mpr h1)⟩
    · exact Or.inr (Or.inr (Or.inl ⟨⟨h1, h2⟩,
        fun hh => absurd hh.2 (not_lt.mpr h2),
        fun hh => absurd hh.1 (not_le.mpr h1),
        fun hh => absurd hh.2 (not_lt.mpr h2)⟩))
  · rcases le_or_lt c.h p.h with h1 | h1 <;> rcases lt_or_le c.l p.l with h2 | h2
    · simp [classifyBar, h1, h2, not_lt.mpr h1, not_le.mpr h2]
    · simp [classifyBar, h1, h2, not_lt.mpr h1]
    · simp [classifyBar, h1, h2]
    · simp [classifyBar, h1, h2, not_lt.mpr h2, not_le.mpr h1]

/-- Per-group aggregation over a list of simulation results (`none` = NaN):
`sample_count` and `expectancy_R` skip the NaN entries, while `win_rate`
averages the `_Win` indicator over every row of the group. -/
theorem aggregation_group_stats (results : List (Option ℚ)) (defined : List ℚ)
    (hdef : results.filterMap id = defined) :
    sample_count results = defined.length ∧
    expectancy_R results
      = (if defined = [] then none
         else some (defined.sum / defined.length)) ∧
    win_rate results
      = (if results = [] then none
         else some (((defined.filter (fun x => decide (0 < x))).length : ℚ)
           / results.length)) := by
  refine ⟨by simp [sample_count, hdef], by simp [expectancy_R, nanmean, hdef], ?_⟩
  rw [win_rate]
  by_cases hne : results = []
  · simp [hne]
  · rw [if_neg hne, if_neg hne, winFlag_sum, hdef]

/-- C8 counterexample: a degenerate simulation (entry 0, or empty window)
yields NaN, and the Aggregator's `win_rate` does count that NaN result as a
loss: a group holding one winning result and one NaN result gets
`win_rate = 1/2` (the NaN row enters the denominator with `_Win = 0`)
instead of the `1` that excluding it would give, even though `sample_count`
and `expectancy_R` do exclude it. -/
theorem c8_win_rate_counterexample :
    _simulate_ohlc_path 0 [⟨1, 1, 1, 1⟩] 1 defaultRisk = none ∧
    _simulate_ohlc_path 100 [] 1 defaultRisk = none ∧
    sample_count [some 1, none] = 1 ∧
    expectancy_R [some 1, none] = some 1 ∧
    win_rate [some 1, none] = some (1/2) ∧
    (1/2 : ℚ) ≠ 1 := by
  refine ⟨?_, ?_, rfl, ?_, ?_, by norm_num⟩
  · rw [_simulate_ohlc_path, if_pos (Or.inl le_rfl)]
  · rw [_simulate_ohlc_path, if_pos (Or.inr rfl)]
  · norm_num [expectancy_R, nanmean, List.filterMap_cons]
  · rw [win_rate, if_neg (by simp)]
    norm_num [winFlag]

/-- C8 (amended): a simulation with a non-positive entry price (a non-finite
float entry has no ℚ representative) or an empty forward window returns NaN
rather than raising, and the Aggregator excludes undefined results from
`sample_count` and `expectancy_R`; `win_rate`, however, counts every row of
the group in its denominator, scoring undefined results as non-wins. -/
theorem c8_nan_exclusion_amended :
    (∀ (entry : ℚ) (bars : List Bar) (side : ℤ) (risk : RiskModel),
      entry ≤ 0 ∨ bars = [] →
      _simulate_ohlc_path entry bars side risk = none) ∧
    (∀ (results : List (Option ℚ)) (defined : List ℚ),
      results.filterMap id = defined →
      sample_count results = defined.length ∧
      expectancy_R results
        = (if defined = [] then none
           else some (defined.sum / defined.length)) ∧
      win_rate results
        = (if results = [] then none
           else some (((defined.filter (fun x => decide (0 < x))).length : ℚ)
             / results.length))) := by
  constructor
  · intro entry bars side risk hdeg
    rw [_simulate_ohlc_path, if_pos hdeg]
  · intro results defined hdef
    exact aggregation_group_stats results defined hdef

/-- C8 witness: the amended theorem applied to the degenerate entry price 0
with a nonempty window, to the empty window, and to the concrete group
`[1.0, NaN]`. -/
theorem c8_nan_exclusion_witness :
    _simulate_ohlc_path 0 [⟨1, 1, 1, 1⟩] 1 defaultRisk = none ∧
    _simulate_ohlc_path 100 [] (-1) defaultRisk = none ∧
    sample_count [some 1, none] = 1 ∧
    expectancy_R [some 1, none] = some 1 ∧
    win_rate [some 1, none] = some (1/2) := by
  have h1 := c8_nan_exclusion_amended.1 0 [⟨1, 1, 1, 1⟩] 1 defaultRisk
    (Or.inl le_rfl)
  have h2 := c8_nan_exclusion_amended.1 100 [] (-1) defaultRisk (Or.inr rfl)
  have h3 := c8_nan_exclusion_amended.2 [some 1, none] [1] (by simp)
  refine ⟨h1, h2, h3.1, ?_, ?_⟩
  · rw [h3.2.1]
    norm_num
  · rw [h3.2.2, if_neg (by simp)]
    norm_num

/-- C9: for a group whose simulation results are all defined, the Aggregator
returns `sample_count` equal to the number of results, `win_rate` equal to
the fraction of results with positive mean R, and `expectancy_R` equal to
the arithmetic mean of the results.  (The spec's `0.667` is the displayed
rounding of the exact mean `2/3`; see the witness.) -/
theorem c9_aggregator_group_stats (xs : List ℚ) (hne : xs ≠ []) :
    sample_count (xs.map some) = xs.length ∧
    expectancy_R (xs.map some) = some (xs.sum / xs.length) ∧
    win_rate (xs.map some)
      = some (((xs.filter (fun x => decide (0 < x))).length : ℚ) / xs.length) := by
  have hfm : (xs.map some).filterMap id = xs := by
    rw [List.filterMap_map]
    exact List.filterMap_some xs
  obtain ⟨h1, h2, h3⟩ := aggregation_group_stats (xs.map some) xs hfm
  refine ⟨by simp [h1], by rw [h2, if_neg hne], ?_⟩
  rw [h3, if_neg (by simp [hne])]
  simp

/-- C9 witness: the theorem applied to the concrete group `[1.0, -1.0, 2.0]`
gives `sample_count = 3`, `expectancy_R = 2/3` (displayed as 0.667) and
`win_rate = 2/3`. -/
theorem c9_aggregator_group_stats_witness :
    sample_count (([1, -1, 2] : List ℚ).map some) = 3 ∧
    expectancy_R (([1, -1, 2] : List ℚ).map some) = some (2/3) ∧
    win_rate (([1, -1, 2] : List ℚ).map some) = some (2/3) := by
  obtain ⟨h1, h2, h3⟩ := c9_aggregator_group_stats [1, -1, 2] (by simp)
  refine ⟨by simpa using h1, ?_, ?_⟩
  · rw [h2]
    norm_num
  · rw [h3]
    norm_num [List.filter_cons]

/-- `filterMap id` on a constant list of defined values. -/
theorem filterMap_id_replicate_some (n : ℕ) (q : ℚ) :
    (List.replicate n (some q)).filterMap id = List.replicate n q := by
  induction n with
  | zero => rfl
  | succ k ih => simp [List.replicate_succ, ih]

/-- `nanmean` of `n ≥ 1` identical defined values is that value. -/
theorem nanmean_replicate (n : ℕ) (hn : n ≠ 0) (q : ℚ) :
    nanmean (List.replicate n (some q)) = some q := by
  rw [nanmean]
  simp only [filterMap_id_replicate_some]
  rw [if_neg (by simp [hn]), List.sum_replicate, List.length_replicate,
    nsmul_eq_mul, mul_div_cancel_left₀ q (by exact_mod_cast hn)]

/-- On a stop touch the loop body returns immediately, filling every
still-open unit with `-1.0` (engine.py lines 196-200). -/
theorem simStep_stop (entry : ℚ) (side : ℤ) (risk : RiskModel) (bar : Bar)
    (st : SimState) (hstop : stopCond entry side risk bar) :
    simStep entry side risk bar st
      = .done (nanmean (st.exits.map (fun e => some (e.getD (-1))))) := by
  rw [simStep, if_pos hstop]

/-- A bar that touches neither the stop nor either target leaves the
initial all-open state unchanged. -/
theorem simStep_quiet (entry : ℚ) (side : ℤ) (risk : RiskModel) (a : Bar)
    (n : ℕ) (m : ℚ) (hs : ¬ stopCond entry side risk a)
    (h1 : ¬ t1Hit entry side risk a) (h2 : ¬ t2Hit entry side risk a) :
    simStep entry side risk a ⟨List.replicate n none, false, m⟩
      = .next ⟨List.replicate n none, false, m⟩ := by
  simp [simStep, hs, targetUpdate, h1, h2, trailingUpdate]

/-- The bar loop skips over a leading run of bars that touch no level. -/
theorem simLoop_quiet (entry : ℚ) (side : ℤ) (risk : RiskModel)
    (pre tail : List Bar) (n : ℕ) (m : ℚ)
    (hq : ∀ a ∈ pre, ¬ stopCond entry side risk a ∧
      ¬ t1Hit entry side risk a ∧ ¬ t2Hit entry side risk a) :
    simLoop entry side risk (pre ++ tail) ⟨List.replicate n none, false, m⟩
      = simLoop entry side risk tail ⟨List.replicate n none, false, m⟩ := by
  induction pre with
  | nil => rfl
  | cons a pr ih =>
    have ha := hq a (List.mem_cons_self a pr)
    rw [List.cons_append, simLoop,
      simStep_quiet entry side risk a n m ha.1 ha.2.1 ha.2.2]
    exact ih (fun x hx => hq x (List.mem_cons_of_mem _ hx))

/-- C1 (amended: `contracts ≥ 2`; with fewer than 2 contract-units the
source either raises IndexError or averages an empty exit list to NaN):
the stop is evaluated first on every forward bar — from any loop state, a
bar whose adverse extreme reaches the stop level makes every still-open
contract-unit exit at `-1R` and ends the simulation on that bar — and if
the stop is hit before any bar has touched T1 or T2, the returned mean R
is exactly `-1.0`, regardless of the stop bar's favorable extreme and of
all later bars. -/
theorem c1_stop_precedence :
    (∀ (entry : ℚ) (side : ℤ) (risk : RiskModel) (bar : Bar) (st : SimState),
      stopCond entry side risk bar →
      simStep entry side risk bar st
        = .done (nanmean (st.exits.map (fun e => some (e.getD (-1)))))) ∧
    (∀ (entry : ℚ) (side : ℤ) (risk : RiskModel) (pre post : List Bar)
      (b : Bar),
      0 < entry → 2 ≤ risk.contracts →
      (∀ a ∈ pre, ¬ stopCond entry side risk a ∧
        ¬ t1Hit entry side risk a ∧ ¬ t2Hit entry side risk a) →
      stopCond entry side risk b →
      _simulate_ohlc_path entry (pre ++ b :: post) side risk = some (-1)) := by
  refine ⟨simStep_stop, ?_⟩
  intro entry side risk pre post b hpos hc hq hstop
  rw [_simulate_ohlc_path, if_neg (by simp [not_or, not_le, hpos]),
    simLoop_quiet entry side risk pre (b :: post) risk.contracts entry hq,
    simLoop, simStep_stop entry side risk b _ hstop]
  have hfill : (List.replicate risk.contracts (none : Option ℚ)).map
      (fun e => some (e.getD (-1)))
      = List.replicate risk.contracts (some (-1)) := by
    rw [List.map_replicate]
    rfl
  simp only [hfill]
  exact nanmean_replicate risk.contracts (by omega) (-1)

/-- C1 witness: a long entry at 100 with the default risk model; the first
forward bar touches nothing, the second touches the stop (low 95) and T1
(high 106) on the same bar — the stop wins and the result is exactly `-1`,
with an arbitrary later bar present. -/
theorem c1_stop_precedence_witness :
    _simulate_ohlc_path 100
      [⟨100, 104, 99, 103⟩, ⟨99, 106, 95, 100⟩, ⟨1, 1, 1, 1⟩] 1 defaultRisk
      = some (-1) := by
  refine c1_stop_precedence.2 100 1 defaultRisk
    [⟨100, 104, 99, 103⟩] [⟨1, 1, 1, 1⟩] ⟨99, 106, 95, 100⟩
    (by norm_num) (by norm_num [defaultRisk]) ?_ ?_
  · intro a ha
    have : a = ⟨100, 104, 99, 103⟩ := by simpa using ha
    subst this
    refine ⟨?_, ?_, ?_⟩ <;>
      norm_num [stopCond, t1Hit, t2Hit, stop_price, t1_price, t2_price,
        r_price, defaultRisk]
  · norm_num [stopCond, stop_price, r_price, defaultRisk]

/-- C1 counterexample: with `contracts = 0` (a RiskModel the claim
quantifies over), a stop hit on the first bar fills no unit and the
returned mean is `np.nanmean([])`, i.e. NaN — not `-1.0` as the claim
requires. -/
theorem c1_contracts_zero_counterexample :
    stopCond 100 1 ⟨5/100, 0, (1, 2), 2, 1⟩ ⟨100, 100, 90, 95⟩ ∧
    _simulate_ohlc_path 100 [⟨100, 100, 90, 95⟩] 1 ⟨5/100, 0, (1, 2), 2, 1⟩
      = none ∧
    (none : Option ℚ) ≠ some (-1) := by
  have hstop : stopCond 100 1 ⟨5/100, 0, (1, 2), 2, 1⟩ ⟨100, 100, 90, 95⟩ := by
    norm_num [stopCond, stop_price, r_price]
  refine ⟨hstop, ?_, by simp⟩
  rw [_simulate_ohlc_path, if_neg (by norm_num), simLoop,
    simStep_stop 100 1 ⟨5/100, 0, (1, 2), 2, 1⟩ ⟨100, 100, 90, 95⟩ _ hstop]
  rfl

/-- Bar 1 of the spec's trailing-stop scenario (high 106): T1 fills unit 1
at `+1R`. -/
theorem c2_step1 :
    simStep 100 1 defaultRisk ⟨100, 106, 99, 104⟩
      ⟨[none, none, none], false, 100⟩
      = .next ⟨[some 1, none, none], false, 100⟩ := by
  norm_num [simStep, stopCond, stop_price, r_price, targetUpdate, t1Hit,
    t1_price, t2Hit, t2_price, trailingUpdate, defaultRisk]

/-- Bar 2 of the scenario (high 112): T2 fills unit 2 at `+2R`, trailing
becomes active and the favorable extreme becomes 112 (so the trailing stop
is `112 - 1R = 107`; bar 2's low 108 stays above it). -/
theorem c2_step2 :
    simStep 100 1 defaultRisk ⟨108, 112, 108, 111⟩
      ⟨[some 1, none, none], false, 100⟩
      = .next ⟨[some 1, some 2, none], true, 112⟩ := by
  norm_num [simStep, stopCond, stop_price, r_price, targetUpdate, t1Hit,
    t1_price, t2Hit, t2_price, trailingUpdate, defaultRisk]

/-- Bar 3 of the scenario (low 106 ≤ trailing stop 107): the last unit exits
at the R-multiple implied by the trailing-stop price,
`(107 - 100) / 5 = 1.4R`, and the simulation returns
`mean(1, 2, 1.4) = 22/15`. -/
theorem c2_step3 :
    simStep 100 1 defaultRisk ⟨108, 109, 106, 107⟩
      ⟨[some 1, some 2, none], true, 112⟩
      = .done (some (22/15)) := by
  norm_num [simStep, stopCond, stop_price, r_price, targetUpdate, t1Hit,
    t1_price, t2Hit, t2_price, trailingUpdate, nanmean, defaultRisk]
  refine ⟨by simp, ?_⟩
  norm_num [List.filterMap_cons]

/-- The full three-bar run of the spec's trailing-stop scenario. -/
theorem c2_eval :
    _simulate_ohlc_path 100
      [⟨100, 106, 99, 104⟩, ⟨108, 112, 108, 111⟩, ⟨108, 109, 106, 107⟩]
      1 defaultRisk = some (22/15) := by
  rw [_simulate_ohlc_path, if_neg (by simp),
    show (List.replicate defaultRisk.contracts (none : Option ℚ))
      = [none, none, none] from rfl]
  simp only [simLoop, c2_step1, c2_step2, c2_step3]

/-- C2 counterexample: on the claim's scenario (entry 100, long, r = 5,
targets +1R/+2R, trailing gap 1R, 3 contracts; bar 1 high 106, bar 2 high
112, bar 3 low 106, no other level touched) the code returns
`mean_R = 22/15 = 1.4666…`, not the claimed `(1+2+1)/3 = 4/3 = 1.333`: the
last unit exits at the R-multiple implied by the trailing-stop price 107,
which is `+1.4R`, not `+1R`. -/
theorem c2_mean_counterexample :
    _simulate_ohlc_path 100
      [⟨100, 106, 99, 104⟩, ⟨108, 112, 108, 111⟩, ⟨108, 109, 106, 107⟩]
      1 defaultRisk = some (22/15) ∧ (22/15 : ℚ) ≠ 4/3 := by
  exact ⟨c2_eval, by norm_num⟩

/-- C2 (amended): in the scenario, unit 1 exits at `+1R` (bar 1), unit 2 at
`+2R` with trailing activated at favorable extreme 112 and trailing stop
`112 - 1R = 107` (bar 2), unit 3 exits on bar 3 at the R-multiple implied by
the trailing-stop price — `(107-100)/5 = +1.4R` — and the returned mean is
`(1 + 2 + 1.4)/3 = 22/15 ≈ 1.467`. -/
theorem c2_trailing_scenario :
    simStep 100 1 defaultRisk ⟨100, 106, 99, 104⟩
      ⟨[none, none, none], false, 100⟩
      = .next ⟨[some 1, none, none], false, 100⟩ ∧
    simStep 100 1 defaultRisk ⟨108, 112, 108, 111⟩
      ⟨[some 1, none, none], false, 100⟩
      = .next ⟨[some 1, some 2, none], true, 112⟩ ∧
    max (112 : ℚ) 109 - defaultRisk.trailing_gap_R * r_price 100 defaultRisk
      = 107 ∧
    (107 - 100) / r_price 100 defaultRisk = 7/5 ∧
    nanmean [some 1, some 2, some (7/5)] = some (22/15) ∧
    _simulate_ohlc_path 100
      [⟨100, 106, 99, 104⟩, ⟨108, 112, 108, 111⟩, ⟨108, 109, 106, 107⟩]
      1 defaultRisk = some (22/15) := by
  refine ⟨c2_step1, c2_step2, ?_, ?_, ?_, c2_eval⟩
  · norm_num [r_price, defaultRisk]
  · norm_num [r_price, defaultRisk]
  · rw [nanmean]
    rw [show (List.filterMap id [some 1, some 2, some (7/5)] : List ℚ)
      = [1, 2, 7/5] from rfl, if_neg (by simp)]
    norm_num

/-- The loop invariant for C10: the exit list keeps its `contracts` length
and every realized exit is at least `-1R`. -/
def GoodExits (risk : RiskModel) (exits : List (Option ℚ)) : Prop :=
  exits.length = risk.contracts ∧ ∀ x ∈ exits, ∀ v, x = some v → -1 ≤ v

theorem sum_ge_neg_length (l : List ℚ) (h : ∀ x ∈ l, -1 ≤ x) :
    -(l.length : ℚ) ≤ l.sum := by
  induction l with
  | nil => simp
  | cons a tl ih =>
    simp only [List.sum_cons, List.length_cons]
    have ha := h a (List.mem_cons_self a tl)
    have htl := ih (fun x hx => h x (List.mem_cons_of_mem _ hx))
    push_cast
    linarith

/-- A nonempty mean of values all at least `-1` is at least `-1`. -/
theorem nanmean_ge_neg_one (xs : List (Option ℚ))
    (hne : xs.filterMap id ≠ []) (hb : ∀ v ∈ xs.filterMap id, -1 ≤ v) :
    ∃ q, nanmean xs = some q ∧ -1 ≤ q := by
  have hlen : 0 < ((xs.filterMap id).length : ℚ) := by
    exact_mod_cast List.length_pos.mpr hne
  refine ⟨(xs.filterMap id).sum / (xs.filterMap id).length, ?_, ?_⟩
  · simp only [nanmean]
    rw [if_neg hne]
  · rw [le_div_iff₀ hlen]
    have := sum_ge_neg_length _ hb
    linarith

/-- Filling the still-open units of a good exit list with a value `≥ -1`
(stop fill `-1`, or the horizon-end close exit) yields a defined mean
`≥ -1`. -/
theorem nanmean_fill_bound (exits : List (Option ℚ)) (d : ℚ)
    (hne : exits ≠ []) (hd : -1 ≤ d)
    (hb : ∀ x ∈ exits, ∀ v, x = some v → -1 ≤ v) :
    ∃ q, nanmean (exits.map (fun e => some (e.getD d))) = some q ∧ -1 ≤ q := by
  have hmap : (exits.map (fun e => some (e.getD d))).filterMap id
      = exits.map (fun e => e.getD d) := by
    rw [List.filterMap_map]
    exact List.filterMap_eq_map _ ▸ rfl
  apply nanmean_ge_neg_one
  · rw [hmap]
    simpa using hne
  · rw [hmap]
    intro v hv
    obtain ⟨e, he, rfl⟩ := List.mem_map.mp hv
    cases e with
    | none => simpa using hd
    | some w => simpa using hb (some w) he w rfl

/-- Setting one unit to a value `≥ -1` preserves the invariant. -/
theorem GoodExits_set (risk : RiskModel) (exits : List (Option ℚ)) (i : ℕ)
    (v : ℚ) (hg : GoodExits risk exits) (hv : -1 ≤ v) :
    GoodExits risk (exits.set i (some v)) := by
  refine ⟨by rw [List.length_set]; exact hg.1, ?_⟩
  intro x hx v' hxv
  rcases List.mem_or_eq_of_mem_set hx with hmem | rfl
  · exact hg.2 x hmem v' hxv
  · simp only [Option.some.injEq] at hxv
    subst hxv
    exact hv

/-- The target block preserves the invariant (the new exits are the
nonnegative scale-out multiples) and does not change `max_price_seen`. -/
theorem targetUpdate_good (entry : ℚ) (side : ℤ) (risk : RiskModel)
    (bar : Bar) (st : SimState) (hR1 : 0 ≤ risk.scale_out_R.1)
    (hR2 : 0 ≤ risk.scale_out_R.2) (hg : GoodExits risk st.exits) :
    GoodExits risk (targetUpdate entry side risk bar st).exits ∧
    (targetUpdate entry side risk bar st).max_price_seen
      = st.max_price_seen := by
  simp only [targetUpdate]
  split
  · split
    · exact ⟨GoodExits_set _ _ _ _
        (GoodExits_set _ _ _ _ hg (by linarith)) (by linarith), rfl⟩
    · exact ⟨GoodExits_set _ _ _ _ hg (by linarith), rfl⟩
  · split
    · exact ⟨GoodExits_set _ _ _ _ hg (by linarith), rfl⟩
    · exact ⟨hg, rfl⟩

/-- A loop body that continues does not change the exit list except through
the target block. -/
theorem trailingUpdate_next_exits (entry : ℚ) (side : ℤ) (risk : RiskModel)
    (bar : Bar) (st st' : SimState)
    (h : trailingUpdate entry side risk bar st = .next st') :
    st'.exits = st.exits := by
  simp only [trailingUpdate] at h
  split at h
  · split at h
    · split at h
      · exact absurd h (by simp)
      · cases h; rfl
    · split at h
      · exact absurd h (by simp)
      · cases h; rfl
  · cases h; rfl

/-- A loop body that continues did not see a stop touch. -/
theorem simStep_next_not_stop (entry : ℚ) (side : ℤ) (risk : RiskModel)
    (bar : Bar) (st st' : SimState)
    (h : simStep entry side risk bar st = .next st') :
    ¬ stopCond entry side risk bar := by
  intro hstop
  rw [simStep, if_pos hstop] at h
  exact absurd h (by simp)

/-- A loop body that continues preserves the invariant. -/
theorem simStep_next_good (entry : ℚ) (side : ℤ) (risk : RiskModel)
    (bar : Bar) (st st' : SimState) (hR1 : 0 ≤ risk.scale_out_R.1)
    (hR2 : 0 ≤ risk.scale_out_R.2) (hg : GoodExits risk st.exits)
    (h : simStep entry side risk bar st = .next st') :
    GoodExits risk st'.exits := by
  rw [simStep] at h
  split at h
  · exact absurd h (by simp)
  · rw [trailingUpdate_next_exits _ _ _ _ _ _ h]
    exact (targetUpdate_good entry side risk bar st hR1 hR2 hg).1

/-- Setting one unit to a value `≥ -1` in a good exit list and averaging
the defined entries gives a defined mean `≥ -1`. -/
theorem nanmean_set_bound (exits : List (Option ℚ)) (v : ℚ) (i : ℕ)
    (hi : i < exits.length) (hv : -1 ≤ v)
    (hb : ∀ x ∈ exits, ∀ w, x = some w → -1 ≤ w) :
    ∃ q, nanmean (exits.set i (some v)) = some q ∧ -1 ≤ q := by
  have hmem : some v ∈ exits.set i (some v) := by
    exact List.mem_iff_getElem.mpr
      ⟨i, by simpa using hi, List.getElem_set_self _⟩
  apply nanmean_ge_neg_one
  · intro hnil
    have : v ∈ (exits.set i (some v)).filterMap id :=
      List.mem_filterMap.mpr ⟨some v, hmem, rfl⟩
    rw [hnil] at this
    simp at this
  · intro w hw
    obtain ⟨x, hx, hxw⟩ := List.mem_filterMap.mp hw
    rcases List.mem_or_eq_of_mem_set hx with hm | rfl
    · exact hb x hm w hxw
    · simp only [id_eq, Option.some.injEq] at hxw
      subst hxw
      exact hv

/-- A loop body that returns did so with a defined mean at least `-1`: the
stop branch fills every open unit at `-1`, and a trailing exit can only fire
on a bar whose adverse extreme stayed strictly on the safe side of the stop
(the stop check ran first), so the R-multiple implied by the trailing-stop
price exceeds `-1`. -/
theorem simStep_done_bound (entry : ℚ) (side : ℤ) (risk : RiskModel)
    (bar : Bar) (st : SimState) (r : Option ℚ)
    (hside : side = 1 ∨ side = -1) (hr : 0 < r_price entry risk)
    (hR1 : 0 ≤ risk.scale_out_R.1) (hR2 : 0 ≤ risk.scale_out_R.2)
    (hc1 : 1 ≤ risk.contracts) (hg : GoodExits risk st.exits)
    (h : simStep entry side risk bar st = .done r) :
    ∃ q, r = some q ∧ -1 ≤ q := by
  rw [simStep] at h
  split at h
  case isTrue hstop =>
    simp only [StepResult.done.injEq] at h
    subst h
    exact nanmean_fill_bound st.exits (-1)
      (List.ne_nil_of_length_pos (by rw [hg.1]; omega)) le_rfl hg.2
  case isFalse hnstop =>
    have hg1 := (targetUpdate_good entry side risk bar st hR1 hR2 hg).1
    have hlen1 : (targetUpdate entry side risk bar st).exits.length
        = risk.contracts := hg1.1
    simp only [trailingUpdate] at h
    split at h
    case isFalse _ => exact absurd h (by simp)
    case isTrue hact =>
      split at h
      case isTrue hpos =>
        split at h
        case isFalse _ => exact absurd h (by simp)
        case isTrue htrig =>
          simp only [StepResult.done.injEq] at h
          subst h
          apply nanmean_set_bound _ _ _ (by rw [hlen1]; omega) ?_ hg1.2
          have hstopv : stop_price entry side risk < bar.l := by
            rw [stopCond, not_or, not_and] at hnstop
            exact not_le.mp (hnstop.1 hpos)
          rw [stop_price, if_pos hpos] at hstopv
          rw [le_div_iff₀ hr]
          have : bar.l ≤ max (targetUpdate entry side risk bar st).max_price_seen bar.h
              - risk.trailing_gap_R * r_price entry risk := htrig
          linarith
      case isFalse hnpos =>
        split at h
        case isFalse _ => exact absurd h (by simp)
        case isTrue htrig =>
          simp only [StepResult.done.injEq] at h
          subst h
          have hsneg : side = -1 := by
            rcases hside with rfl | rfl
            · exact absurd (by norm_num) hnpos
            · rfl
          apply nanmean_set_bound _ _ _ (by rw [hlen1]; omega) ?_ hg1.2
          have hstopv : bar.h < stop_price entry side risk := by
            rw [stopCond, not_or] at hnstop
            have h2 := hnstop.2
            rw [not_and] at h2
            exact not_le.mp (h2 (by rw [hsneg]; norm_num))
          rw [stop_price, if_neg hnpos] at hstopv
          rw [le_div_iff₀ hr]
          have : min (targetUpdate entry side risk bar st).max_price_seen bar.l
              + risk.trailing_gap_R * r_price entry risk ≤ bar.h := htrig
          linarith

/-- An early return out of the bar loop carries a defined mean `≥ -1`. -/
theorem simLoop_inl_bound (entry : ℚ) (side : ℤ) (risk : RiskModel)
    (hside : side = 1 ∨ side = -1) (hr : 0 < r_price entry risk)
    (hR1 : 0 ≤ risk.scale_out_R.1) (hR2 : 0 ≤ risk.scale_out_R.2)
    (hc1 : 1 ≤ risk.contracts) :
    ∀ (bars : List Bar) (st : SimState) (r : Option ℚ),
      GoodExits risk st.exits →
      simLoop entry side risk bars st = .inl r →
      ∃ q, r = some q ∧ -1 ≤ q := by
  intro bars
  induction bars with
  | nil =>
    intro st r _ h
    exact absurd h (by simp [simLoop])
  | cons b tl ih =>
    intro st r hg h
    rw [simLoop] at h
    rcases hs : simStep entry side risk b st with rr | st'
    · simp only [hs, Sum.inl.injEq] at h
      subst h
      exact simStep_done_bound entry side risk b st rr hside hr hR1 hR2 hc1
        hg hs
    · simp only [hs] at h
      exact ih st' r (simStep_next_good entry side risk b st st' hR1 hR2
        hg hs) h

/-- Exhausting the bar loop preserves the invariant. -/
theorem simLoop_inr_good (entry : ℚ) (side : ℤ) (risk : RiskModel)
    (hR1 : 0 ≤ risk.scale_out_R.1) (hR2 : 0 ≤ risk.scale_out_R.2) :
    ∀ (bars : List Bar) (st st' : SimState),
      GoodExits risk st.exits →
      simLoop entry side risk bars st = .inr st' →
      GoodExits risk st'.exits := by
  intro bars
  induction bars with
  | nil =>
    intro st st' hg h
    rw [simLoop] at h
    simp only [Sum.inr.injEq] at h
    subst h
    exact hg
  | cons b tl ih =>
    intro st st' hg h
    rw [simLoop] at h
    rcases hs : simStep entry side risk b st with rr | st1
    · simp only [hs] at h
      exact absurd h (by simp)
    · simp only [hs] at h
      exact ih st1 st' (simStep_next_good entry side risk b st st1 hR1 hR2
        hg hs) h

/-- If the bar loop exhausted the window, the last bar did not touch the
stop (its step continued instead of returning). -/
theorem simLoop_inr_last_not_stop (entry : ℚ) (side : ℤ) (risk : RiskModel) :
    ∀ (bars : List Bar) (st st' : SimState) (b : Bar),
      simLoop entry side risk bars st = .inr st' →
      bars.getLast? = some b →
      ¬ stopCond entry side risk b := by
  intro bars
  induction bars with
  | nil =>
    intro st st' b _ hb
    simp at hb
  | cons a tl ih =>
    intro st st' b h hb
    rw [simLoop] at h
    rcases hs : simStep entry side risk a st with rr | st1
    · simp only [hs] at h
      exact absurd h (by simp)
    · simp only [hs] at h
      cases tl with
      | nil =>
        have hba : b = a := by simpa using hb.symm
        subst hba
        exact simStep_next_not_stop entry side risk b st st1 hs
      | cons c tl2 =>
        rw [List.getLast?_cons_cons] at hb
        exact ih st1 st' b h hb

/-- C10: under a positive finite entry, a stop fraction `> 0`, at least two
contract-units, nonnegative scale-out multiples, an actual long/short side
sign, and a nonempty forward window of bars with `low ≤ close ≤ high`, the
OHLC-precision simulator returns a defined mean R-multiple `≥ -1`: no unit
ever realizes an exit below `-1R`, because the stop check precedes the
trailing-stop check within each bar, and the end-of-window close exit can
only happen on a final bar whose adverse extreme did not reach the stop. -/
theorem c10_mean_R_floor (entry : ℚ) (bars : List Bar) (side : ℤ)
    (risk : RiskModel) (hpos : 0 < entry) (hside : side = 1 ∨ side = -1)
    (hsp : 0 < risk.stop_pct) (hc : 2 ≤ risk.contracts)
    (hR1 : 0 ≤ risk.scale_out_R.1) (hR2 : 0 ≤ risk.scale_out_R.2)
    (hne : bars ≠ []) (hwf : ∀ b ∈ bars, b.l ≤ b.c ∧ b.c ≤ b.h) :
    ∃ q, _simulate_ohlc_path entry bars side risk = some q ∧ -1 ≤ q := by
  have hr : 0 < r_price entry risk := mul_pos hpos hsp
  have hg0 : GoodExits risk (List.replicate risk.contracts (none : Option ℚ)) := by
    refine ⟨List.length_replicate _ _, ?_⟩
    intro x hx v hxv
    rw [List.eq_of_mem_replicate hx] at hxv
    cases hxv
  rw [_simulate_ohlc_path, if_neg (by simp [not_or, not_le, hpos, hne])]
  rcases hL : simLoop entry side risk bars
      ⟨List.replicate risk.contracts none, false, entry⟩ with r | st
  · simp only [hL]
    exact simLoop_inl_bound entry side risk hside hr hR1 hR2 (by omega)
      bars _ r hg0 hL
  · simp only [hL]
    have hgood := simLoop_inr_good entry side risk hR1 hR2 bars _ st hg0 hL
    obtain ⟨lb, hlb⟩ : ∃ lb, bars.getLast? = some lb := by
      rcases hb : bars.getLast? with _ | lb
      · exact absurd (List.getLast?_isSome.mpr hne) (by simp [hb])
      · exact ⟨lb, rfl⟩
    have hnstop := simLoop_inr_last_not_stop entry side risk bars _ st lb
      hL hlb
    have hlbwf := hwf lb (List.mem_of_mem_getLast? hlb)
    have hlast : bars.getLastD ⟨0, 0, 0, 0⟩ = lb := by
      rw [List.getLastD_eq_getLast?, hlb]
      rfl
    simp only [hlast]
    have hexit : -1 ≤ (if 0 < side then (lb.c - entry) / r_price entry risk
        else (entry - lb.c) / r_price entry risk) := by
      rcases hside with rfl | rfl
      · rw [if_pos (by norm_num)]
        have hstopv : stop_price entry 1 risk < lb.l := by
          rw [stopCond, not_or, not_and] at hnstop
          exact not_le.mp (hnstop.1 (by norm_num))
        rw [stop_price, if_pos (by norm_num)] at hstopv
        rw [le_div_iff₀ hr]
        have := hlbwf.1
        linarith
      · rw [if_neg (by norm_num)]
        have hstopv : lb.h < stop_price entry (-1) risk := by
          rw [stopCond, not_or] at hnstop
          have h2 := hnstop.2
          rw [not_and] at h2
          exact not_le.mp (h2 (by norm_num))
        rw [stop_price, if_neg (by norm_num)] at hstopv
        rw [le_div_iff₀ hr]
        have := hlbwf.2
        linarith
    exact nanmean_fill_bound st.exits _
      (List.ne_nil_of_length_pos (by rw [hgood.1]; omega)) hexit hgood.2

/-- C10 witness: the floor theorem applied to the concrete trailing-stop
scenario run (entry 100, long, default risk model, three well-formed bars). -/
theorem c10_mean_R_floor_witness :
    ∃ q, _simulate_ohlc_path 100
      [⟨100, 106, 99, 104⟩, ⟨108, 112, 108, 111⟩, ⟨108, 109, 106, 107⟩]
      1 defaultRisk = some q ∧ -1 ≤ q := by
  refine c10_mean_R_floor 100 _ 1 defaultRisk (by norm_num) (Or.inl rfl)
    (by norm_num [defaultRisk]) (by norm_num [defaultRisk])
    (by norm_num [defaultRisk]) (by norm_num [defaultRisk]) (by simp) ?_
  intro b hb
  simp only [List.mem_cons, List.not_mem_nil, or_false] at hb
  rcases hb with rfl | rfl | rfl <;> norm_num
